import Mathlib

/-
Verification of the polymer client's protocol decoding and chunk
ingestion/meshing pipeline, shallowly embedded from
src/src/packet_interpreter.cpp, src/src/gamestate.cpp and src/src/gamestate.h.
Machine integers are modelled as Nat/Int with explicit wrap arithmetic where
the code wraps, and byte buffers as total functions from indices to byte
values.
-/

namespace Polymer

/-- Model of the circular read buffer backing the connection
(spec section 3, ByteCursor): a capacity `size`, the backing bytes as a total
function on indices, and circular read/write offsets. -/
structure RingBuffer where
  size : Nat
  data : Nat → Nat
  read_offset : Nat
  write_offset : Nat

/-- Modelled from the spec: `GetReadAmount() = (write_offset - read_offset)
mod capacity` (spec section 3); the RingBuffer implementation is not under
src/, only its callers are. -/
def RingBuffer.readAmount (rb : RingBuffer) : Nat :=
  (rb.write_offset + rb.size - rb.read_offset) % rb.size

/-- Byte exposed at distance `i` past the read cursor, with circular
wraparound `(offset + i) mod capacity` (spec section 6). -/
def RingBuffer.byteAt (rb : RingBuffer) (i : Nat) : Nat :=
  rb.data ((rb.read_offset + i) % rb.size)

/-- Advance the read cursor by `n` bytes, wrapping modulo the capacity. -/
def RingBuffer.advance (rb : RingBuffer) (n : Nat) : RingBuffer :=
  { rb with read_offset := (rb.read_offset + n) % rb.size }

/-- Modelled from the spec: VarInt decoding loop — little-endian 7-bit
groups, continuation bit is the high bit of each byte, at most 10 bytes
(spec section 4.1); fails (`none`) on insufficient data or on a continuation
chain exceeding the maximum length.  `i` is the number of bytes already
consumed, `acc` the value decoded so far; on success returns the value and
the number of bytes consumed.  The RingBuffer implementation is not under
src/. -/
def readVarIntLoop (rb : RingBuffer) : Nat → Nat → Nat → Option (Nat × Nat)
  | 0, _, _ => none
  | fuel + 1, i, acc =>
    if i < rb.readAmount then
      if rb.byteAt i < 128 then some (acc + rb.byteAt i % 128 * 2 ^ (7 * i), i + 1)
      else readVarIntLoop rb fuel (i + 1) (acc + rb.byteAt i % 128 * 2 ^ (7 * i))
    else none

/-- Modelled from the spec: `ReadVarInt() -> (value, ok)`; at most 10
continuation bytes; on failure the read offset is not advanced (spec
section 4.1: reads beyond available bytes must not advance the offset), on
success the cursor advances past the consumed bytes. -/
def RingBuffer.readVarInt (rb : RingBuffer) : Option (Nat × RingBuffer) :=
  match readVarIntLoop rb 10 0 0 with
  | none => none
  | some (v, n) => some (v, rb.advance n)

theorem readVarInt_some_fields (rb : RingBuffer) (v : Nat) (rb1 : RingBuffer)
    (h : rb.readVarInt = some (v, rb1)) :
    rb1.size = rb.size ∧ rb1.write_offset = rb.write_offset ∧ rb1.data = rb.data := by
  unfold RingBuffer.readVarInt at h
  cases hl : readVarIntLoop rb 10 0 0 with
  | none => rw [hl] at h; cases h
  | some p =>
    rw [hl] at h
    cases h
    exact ⟨rfl, rfl, rfl⟩

/-- One iteration of the decoder loop `PacketInterpreter::Interpret`
(src/src/packet_interpreter.cpp lines 18-32 and 270-275).  The entire
packet-body region (lines 34-268: the compression rewiring and every packet
handler) only moves the read cursor, and line 271 then forces it to the
target offset; that region is therefore abstracted as an arbitrary function
`dispatch` giving the cursor position the handlers leave behind.  Returns
the buffer after the iteration and whether the do/while loop continues
(line 275). -/
def interpretIteration (rb : RingBuffer) (dispatch : RingBuffer → Nat) :
    RingBuffer × Bool :=
  let offset_snapshot := rb.read_offset
  match rb.readVarInt with
  | none => (rb, false)
  | some (pkt_size, rb1) =>
    if rb1.readAmount < pkt_size then
      ({ rb1 with read_offset := offset_snapshot }, false)
    else
      let target_offset := (rb1.read_offset + pkt_size) % rb1.size
      let rb2 := { rb1 with read_offset := dispatch rb1 }
      let rb3 := { rb2 with read_offset := target_offset }
      (rb3, decide (rb3.read_offset ≠ rb3.write_offset))

/-- C1: each iteration of the decoder loop either consumes exactly one whole
packet frame — ending with the read cursor at the computed target offset
(start of the packet body plus declared packet length, modulo the capacity),
regardless of how many bytes the dispatched handler consumed — or, when the
length prefix cannot be read or fewer bytes than the declared packet length
are available, leaves the read offset at its value at the start of the
iteration and stops, so no packet is ever partially consumed and no bytes
are double-consumed or skipped across a pause. -/
theorem interpret_frame_invariant (rb : RingBuffer) (dispatch : RingBuffer → Nat) :
    ((interpretIteration rb dispatch).1.read_offset = rb.read_offset ∧
      (interpretIteration rb dispatch).1.size = rb.size ∧
      (interpretIteration rb dispatch).1.write_offset = rb.write_offset ∧
      (interpretIteration rb dispatch).1.data = rb.data ∧
      (interpretIteration rb dispatch).2 = false ∧
      (rb.readVarInt = none ∨
        ∃ v rb1, rb.readVarInt = some (v, rb1) ∧ rb1.readAmount < v)) ∨
    (∃ v rb1, rb.readVarInt = some (v, rb1) ∧ v ≤ rb1.readAmount ∧
      (interpretIteration rb dispatch).1.read_offset =
        (rb1.read_offset + v) % rb.size ∧
      ∀ dispatch2, (interpretIteration rb dispatch2).1.read_offset =
        (interpretIteration rb dispatch).1.read_offset) := by
  cases h : rb.readVarInt with
  | none =>
    left
    simp [interpretIteration, h]
  | some p =>
    obtain ⟨v, rb1⟩ := p
    obtain ⟨hsize, hw, hd⟩ := readVarInt_some_fields rb v rb1 h
    by_cases hlt : rb1.readAmount < v
    · left
      simp [interpretIteration, h, hlt, hsize, hw, hd]
      exact ⟨v, rb1, ⟨rfl, rfl⟩, hlt⟩
    · right
      refine ⟨v, rb1, by simp [h], Nat.le_of_not_lt hlt, ?_, ?_⟩
      · simp [interpretIteration, h, hlt, hsize]
      · intro dispatch2
        simp [interpretIteration, h, hlt]

/-- Clamp of the wire bits-per-block value
(src/src/packet_interpreter.cpp lines 201-205: `if (bpb < 4) bpb = 4;`). -/
def clampBpb (bpb : Nat) : Nat := if bpb < 4 then 4 else bpb

/-- Decode of one 64-bit packed word (src/src/packet_interpreter.cpp lines
231-243): `64 / bpb` fields, field `j` being
`(data_value >> (j * bpb)) & id_mask` with `id_mask = (1 << bpb) - 1`; when a
palette is present the field indexes into it (`palette[palette_index]`,
modelled with default 0 for an out-of-range index), otherwise the field value
is the block id directly. -/
def decodeWord (bpb : Nat) (palette : Option (List Nat)) (w : Nat) : List Nat :=
  (List.range (64 / bpb)).map fun j =>
    let palette_index := w >>> (j * bpb) &&& (2 ^ bpb - 1)
    match palette with
    | some pal => pal.getD palette_index 0
    | none => palette_index

/-- Block ids appended sequentially by one bit-packed section of the
chunk-data handler (src/src/packet_interpreter.cpp lines 200-243): the wire
bits-per-block is clamped to a minimum of 4, a palette is in effect exactly
when the clamped value is below 9 (`wire_palette` models the VarInt entries
read in that case), and every 64-bit word contributes its decoded fields in
order via `chunk[block_index++]`. -/
def sectionBlocks (wire_bpb : Nat) (wire_palette : List Nat) (words : List Nat) :
    List Nat :=
  let bpb := clampBpb wire_bpb
  let palette : Option (List Nat) := if bpb < 9 then some wire_palette else none
  words.flatMap (decodeWord bpb palette)

/-- C2: the bits-per-block value is clamped to a minimum of 4; when the
clamped value is below 9 decoded fields are mapped through the palette and
when it is at least 9 they are used directly as global ids; each 64-bit word
yields floor(64/bpb) fields extracted low bits first, field j being
(w >> (j*bpb)) mod 2^bpb, appended sequentially word after word; and with
bpb = 5, a palette of length 3 and one word whose low 5 bits equal 2, the
first decoded block id is the palette entry at index 2. -/
theorem chunk_section_bitpacked_decode :
    (∀ bpb : Nat, 4 ≤ clampBpb bpb ∧ (4 ≤ bpb → clampBpb bpb = bpb)) ∧
    (∀ wire_bpb pal words, sectionBlocks wire_bpb pal words =
      words.flatMap (decodeWord (clampBpb wire_bpb)
        (if clampBpb wire_bpb < 9 then some pal else none))) ∧
    (∀ bpb pal w, decodeWord bpb (some pal) w =
      (List.range (64 / bpb)).map fun j => pal.getD (w >>> (j * bpb) % 2 ^ bpb) 0) ∧
    (∀ bpb w, decodeWord bpb none w =
      (List.range (64 / bpb)).map fun j => w >>> (j * bpb) % 2 ^ bpb) ∧
    (∀ bpb pal ws ws2, sectionBlocks bpb pal (ws ++ ws2) =
      sectionBlocks bpb pal ws ++ sectionBlocks bpb pal ws2) ∧
    (∀ a b c w : Nat, w % 32 = 2 →
      (sectionBlocks 5 [a, b, c] [w]).head? = some c) := by
  refine ⟨?_, ?_, ?_, ?_, ?_, ?_⟩
  · intro bpb
    constructor
    · unfold clampBpb; split <;> omega
    · intro h; unfold clampBpb; split <;> omega
  · intro wire_bpb pal words
    rfl
  · intro bpb pal w
    simp [decodeWord]
  · intro bpb w
    simp [decodeWord]
  · intro bpb pal ws ws2
    simp [sectionBlocks]
  · intro a b c w hw
    have h12 : List.range (64 / 5) = [0, 1, 2, 3, 4, 5, 6, 7, 8, 9, 10, 11] := rfl
    have hmask : w &&& 31 = w % 32 := Nat.and_pow_two_sub_one_eq_mod w 5
    simp [sectionBlocks, clampBpb, decodeWord, h12, hmask, hw]

/-- Witness for C2: evaluating the concrete bit-packed scenario at palette
[10, 20, 30] and word 2. -/
theorem chunk_section_bitpacked_decode_witness :
    (sectionBlocks 5 [10, 20, 30] [2]).head? = some 30 :=
  chunk_section_bitpacked_decode.2.2.2.2.2 10 20 30 2 (by decide)

/-- Cache slot index from src/src/gamestate.h lines 59-61:
`((v % 24) + 24) % 24` with the C truncated remainder (`Int.tmod`);
`kChunkCacheSize = 24`. -/
def GetChunkCacheIndex (v : Int) : Int :=
  Int.tmod (Int.tmod v 24 + 24) 24

/-- Row/column pair used by the chunk-data decoder when storing a decoded
section: `game->chunks[GetChunkCacheIndex(chunk_x)][GetChunkCacheIndex(chunk_z)]`
(src/src/packet_interpreter.cpp line 221): x selects the row, z the column. -/
def decoderChunkSlot (chunk_x chunk_z : Int) : Int × Int :=
  (GetChunkCacheIndex chunk_x, GetChunkCacheIndex chunk_z)

/-- Row/column pair used by the block-change path and the build
scheduler/mesher: `world.chunks[GetChunkCacheIndex(chunk_z)][GetChunkCacheIndex(chunk_x)]`
(src/src/gamestate.cpp line 415, src/src/gamestate.h lines 84-97): z selects
the row, x the column. -/
def cacheChunkSlot (chunk_x chunk_z : Int) : Int × Int :=
  (GetChunkCacheIndex chunk_z, GetChunkCacheIndex chunk_x)

/-- C10: the decoder and the cache/mesher index expressions do NOT address
the same element for every x and z — at column (x, z) = (0, 1) the decoder
writes array element (0, 1) while the block-change path and mesher read
element (1, 0), a different element of the 24 by 24 slot grid, refuting the
claimed aliasing identity. -/
theorem chunk_slot_transposed_at_0_1 :
    decoderChunkSlot 0 1 = (0, 1) ∧ cacheChunkSlot 0 1 = (1, 0) ∧
    decoderChunkSlot 0 1 ≠ cacheChunkSlot 0 1 := by
  decide

/-- Truncated remainder bounds and congruence: the C expression
`v % 16` followed by a conditional `+ 16` equals the mathematical
residue in [0,16). -/
theorem tmod16_normalized (x : Int) :
    (if Int.tmod x 16 < 0 then Int.tmod x 16 + 16 else Int.tmod x 16) = x % 16 := by
  cases x with
  | ofNat n =>
    have h : Int.tmod (Int.ofNat n) 16 = Int.ofNat (n % 16) := rfl
    have h2 : (Int.ofNat n) % 16 = Int.ofNat (n % 16) := by
      rw [← Int.tmod_eq_emod (by exact Int.ofNat_nonneg n) (by norm_num)]
      exact h
    rw [h, h2]
    split <;> omega
  | negSucc n =>
    have h : Int.tmod (Int.negSucc n) 16 = -(((n + 1) % 16 : Nat) : Int) := rfl
    rw [h, Int.negSucc_eq]
    split <;> omega

/-- Chunk and local coordinates computed by `GameState::OnBlockChange`
(src/src/gamestate.cpp lines 410-427).  `(s32)std::floor(x / 16.0f)` is
modelled as the exact floor division `Int.fdiv x 16` (exact for world
coordinates of magnitude at most 2^24, where the float computation is
error-free); `y / 16` and the C `%` operator are truncated division and
remainder (`Int.tdiv` / `Int.tmod`); only the x and z remainders are
re-normalized by the conditional `+ 16`. -/
structure BlockTarget where
  chunk_x : Int
  chunk_y : Int
  chunk_z : Int
  rel_x : Int
  rel_y : Int
  rel_z : Int

def blockChangeTarget (x y z : Int) : BlockTarget :=
  let chunk_x := Int.fdiv x 16
  let chunk_z := Int.fdiv z 16
  let chunk_y := Int.tdiv y 16
  let rx := Int.tmod x 16
  let ry := Int.tmod y 16
  let rz := Int.tmod z 16
  { chunk_x := chunk_x
    chunk_y := chunk_y
    chunk_z := chunk_z
    rel_x := if rx < 0 then rx + 16 else rx
    rel_y := ry
    rel_z := if rz < 0 then rz + 16 else rz }

/-- Block storage and presence bitmasks of the world cache, keyed by the
slot row/column pair (as addressed on the block-change path,
`chunks[GetChunkCacheIndex(chunk_z)][GetChunkCacheIndex(chunk_x)]`) and
within a slot by (sub-chunk index, local y, local z, local x); indices are
left as integers to model raw array addressing. -/
structure WorldBlocks where
  blocks : (Int × Int) → (Int × Int × Int × Int) → Nat
  bitmask : (Int × Int) → Nat

/-- State update of `GameState::OnBlockChange` (src/src/gamestate.cpp lines
410-437): writes `new_bid` into the addressed slot cell and, when `new_bid`
is non-zero, ORs bit `y / 16` into that slot's presence bitmask.  The
immediate re-mesh triggered afterwards (lines 439-455) does not change the
block or bitmask state and is not modelled here. -/
def OnBlockChange (w : WorldBlocks) (x y z : Int) (new_bid : Nat) : WorldBlocks where
  blocks := fun s k =>
    if s = (GetChunkCacheIndex (blockChangeTarget x y z).chunk_z,
            GetChunkCacheIndex (blockChangeTarget x y z).chunk_x) ∧
       k = ((blockChangeTarget x y z).chunk_y, (blockChangeTarget x y z).rel_y,
            (blockChangeTarget x y z).rel_z, (blockChangeTarget x y z).rel_x)
    then new_bid else w.blocks s k
  bitmask := fun s =>
    if new_bid ≠ 0 ∧ s = (GetChunkCacheIndex (blockChangeTarget x y z).chunk_z,
                          GetChunkCacheIndex (blockChangeTarget x y z).chunk_x)
    then w.bitmask s ||| 2 ^ (Int.tdiv y 16).toNat
    else w.bitmask s

/-- Counterexample to C3 as stated: at world coordinate (0, -1, 0) the code
computes the sub-chunk index by truncation, `chunk_y = 0` rather than the
floor `-1`, and leaves the local y offset at `-1`, outside [0, 16): the
claimed floor-division/normalized-modulo mapping fails for negative y. -/
theorem block_change_negative_y_counterexample :
    (blockChangeTarget 0 (-1) 0).rel_y = -1 ∧
    (blockChangeTarget 0 (-1) 0).chunk_y = 0 ∧
    Int.fdiv (-1) 16 = -1 ∧
    ¬((blockChangeTarget 0 (-1) 0).chunk_y = Int.fdiv (-1) 16 ∧
      0 ≤ (blockChangeTarget 0 (-1) 0).rel_y ∧
      (blockChangeTarget 0 (-1) 0).rel_y < 16) := by
  decide

/-- C3 amended: for every world coordinate with y nonnegative (x and z
unrestricted), applying a block change maps x and z to chunk coordinates by
floor-division by 16 and to local offsets by modulo 16 normalized into
[0,16); y, nonnegative, gets the same floor values from the code's truncated
operators; the new id is written into exactly that slot cell, every other
cell is untouched; when the id is non-air the owning sub-chunk's presence
bit is set and otherwise the bitmask is unchanged.  In particular applying
(x = -1, y = 5, z = 16, id = 7) places 7 at local cell (15, 5, 0) of chunk
column (-1, 1), held in cache slot row GetChunkCacheIndex 1 = 1, column
GetChunkCacheIndex (-1) = 23. -/
theorem block_change_applies (w : WorldBlocks) (x y z : Int) (new_bid : Nat)
    (hy : 0 ≤ y) :
    (blockChangeTarget x y z).chunk_x = Int.fdiv x 16 ∧
    (blockChangeTarget x y z).chunk_z = Int.fdiv z 16 ∧
    (blockChangeTarget x y z).chunk_y = Int.fdiv y 16 ∧
    (blockChangeTarget x y z).rel_x = x % 16 ∧
    (blockChangeTarget x y z).rel_z = z % 16 ∧
    (blockChangeTarget x y z).rel_y = y % 16 ∧
    (0 ≤ x % 16 ∧ x % 16 < 16) ∧ (0 ≤ z % 16 ∧ z % 16 < 16) ∧
    (0 ≤ y % 16 ∧ y % 16 < 16) ∧
    (OnBlockChange w x y z new_bid).blocks
      (GetChunkCacheIndex (Int.fdiv z 16), GetChunkCacheIndex (Int.fdiv x 16))
      (Int.fdiv y 16, y % 16, z % 16, x % 16) = new_bid ∧
    (∀ s k, ¬(s = (GetChunkCacheIndex (Int.fdiv z 16), GetChunkCacheIndex (Int.fdiv x 16)) ∧
        k = (Int.fdiv y 16, y % 16, z % 16, x % 16)) →
      (OnBlockChange w x y z new_bid).blocks s k = w.blocks s k) ∧
    (new_bid ≠ 0 →
      (OnBlockChange w x y z new_bid).bitmask
        (GetChunkCacheIndex (Int.fdiv z 16), GetChunkCacheIndex (Int.fdiv x 16)) =
      w.bitmask (GetChunkCacheIndex (Int.fdiv z 16), GetChunkCacheIndex (Int.fdiv x 16)) |||
        2 ^ (Int.fdiv y 16).toNat) ∧
    (new_bid = 0 → ∀ s, (OnBlockChange w x y z new_bid).bitmask s = w.bitmask s) ∧
    (∀ w2, (OnBlockChange w2 (-1) 5 16 7).blocks
        (GetChunkCacheIndex 1, GetChunkCacheIndex (-1)) (0, 5, 0, 15) = 7 ∧
      GetChunkCacheIndex 1 = 1 ∧ GetChunkCacheIndex (-1) = 23) := by
  have htd : Int.tdiv y 16 = Int.fdiv y 16 := by
    rw [Int.tdiv_eq_ediv hy (by norm_num), Int.fdiv_eq_ediv _ (by norm_num)]
  have htm : Int.tmod y 16 = y % 16 := Int.tmod_eq_emod hy (by norm_num)
  have hrx : (blockChangeTarget x y z).rel_x = x % 16 := tmod16_normalized x
  have hrz : (blockChangeTarget x y z).rel_z = z % 16 := tmod16_normalized z
  have hry : (blockChangeTarget x y z).rel_y = y % 16 := htm
  have hcy : (blockChangeTarget x y z).chunk_y = Int.fdiv y 16 := htd
  have hkey : ((blockChangeTarget x y z).chunk_y, (blockChangeTarget x y z).rel_y,
      (blockChangeTarget x y z).rel_z, (blockChangeTarget x y z).rel_x) =
      (Int.fdiv y 16, y % 16, z % 16, x % 16) := by
    rw [hcy, hry, hrz, hrx]
  refine ⟨rfl, rfl, hcy, hrx, hrz, hry, ⟨Int.emod_nonneg x (by norm_num),
    Int.emod_lt_of_pos x (by norm_num)⟩, ⟨Int.emod_nonneg z (by norm_num),
    Int.emod_lt_of_pos z (by norm_num)⟩, ⟨Int.emod_nonneg y (by norm_num),
    Int.emod_lt_of_pos y (by norm_num)⟩, ?_, ?_, ?_, ?_, ?_⟩
  · simp only [OnBlockChange]
    rw [if_pos ⟨rfl, hkey.symm⟩]
  · intro s k hne
    simp only [OnBlockChange]
    rw [if_neg]
    intro ⟨h1, h2⟩
    exact hne ⟨h1, h2.trans hkey⟩
  · intro hnz
    simp only [OnBlockChange]
    rw [if_pos ⟨hnz, rfl⟩, htd]
  · intro hz s
    simp only [OnBlockChange]
    rw [if_neg]
    intro ⟨h1, _⟩
    exact h1 hz
  · intro w2
    refine ⟨?_, by decide, by decide⟩
    simp only [OnBlockChange]
    rw [if_pos (by decide)]

/-- Witness for C3 amended: evaluating the spec example (x = -1, y = 5,
z = 16, id = 7) on the all-air world. -/
theorem block_change_applies_witness :
    (0 : Int) ≤ 5 ∧
    (OnBlockChange ⟨fun _ _ => 0, fun _ => 0⟩ (-1) 5 16 7).blocks
      (GetChunkCacheIndex (Int.fdiv 16 16), GetChunkCacheIndex (Int.fdiv (-1) 16))
      (Int.fdiv 5 16, 5 % 16, 16 % 16, (-1) % 16) = 7 :=
  ⟨by decide,
    (block_change_applies ⟨fun _ _ => 0, fun _ => 0⟩ (-1) 5 16 7 (by decide)).2.2.2.2.2.2.2.2.2.1⟩

/-- Sub-chunk indices of the column's own 16-entry section array that the
vertical halo copies of `GameState::BuildChunkMesh` read
(src/src/gamestate.cpp lines 211-229): the above-halo copy is guarded by
`chunk_y < 16` and reads `section->chunks[chunk_y + 1]`, the below-halo copy
is guarded by `chunk_y > 0` and reads `section->chunks[chunk_y - 1]`. -/
def verticalHaloReads (chunk_y : Nat) : List Nat :=
  (if chunk_y < 16 then [chunk_y + 1] else []) ++
  (if chunk_y > 0 then [chunk_y - 1] else [])

/-- Bordered 18x18x18 scratch volume built by `GameState::BuildChunkMesh`
(src/src/gamestate.cpp lines 156-229) as a function of bordered coordinates
(y, z, x).  The volume is zero-initialized (memset, line 157) and then
written region by region — interior, west edge, east edge, north edge,
south edge, above layer, below layer — so later writes win; the condition
chain below tests the regions in reverse write order.  Each neighbor
section argument is a function (section index, y, z, x) to block id; the
source indices of every region are copied verbatim from the loops,
including the unshifted tangential indices of the halo copies and the
guards `chunk_y < 16` / `chunk_y > 0` of the vertical copies. -/
def mkBordered (sec east west north south : Nat → Nat → Nat → Nat → Nat)
    (cy : Nat) (y z x : Nat) : Nat :=
  if 0 < cy ∧ y = 0 ∧ z < 16 ∧ x < 16 then sec (cy - 1) 15 z x
  else if cy < 16 ∧ y = 17 ∧ z < 16 ∧ x < 16 then sec (cy + 1) 0 z x
  else if y < 16 ∧ z = 0 ∧ x < 16 then south cy y 0 x
  else if y < 16 ∧ z = 17 ∧ x < 16 then north cy y 15 x
  else if y < 16 ∧ z < 16 ∧ x = 17 then east cy y z 0
  else if y < 16 ∧ z < 16 ∧ x = 0 then west cy y z 15
  else if 1 ≤ y ∧ y ≤ 16 ∧ 1 ≤ z ∧ z ≤ 16 ∧ 1 ≤ x ∧ x ≤ 16 then
    sec cy (y - 1) (z - 1) (x - 1)
  else 0

/-- Number of empty (id = 0) axis-aligned neighbors of interior cell
(y, z, x) in the bordered volume, in the order the mesher tests them
(src/src/gamestate.cpp lines 245-257: above, below, north, south, east,
west). -/
def emptyNeighborCount (b : Nat → Nat → Nat → Nat) (y z x : Nat) : Nat :=
  (if b (y + 2) (z + 1) (x + 1) = 0 then 1 else 0) +
  (if b y (z + 1) (x + 1) = 0 then 1 else 0) +
  (if b (y + 1) z (x + 1) = 0 then 1 else 0) +
  (if b (y + 1) (z + 2) (x + 1) = 0 then 1 else 0) +
  (if b (y + 1) (z + 1) (x + 2) = 0 then 1 else 0) +
  (if b (y + 1) (z + 1) x = 0 then 1 else 0)

/-- Vertices emitted for interior cell (y, z, x): air (0) and the barrier
id 7540 are skipped (src/src/gamestate.cpp line 241), otherwise each empty
neighbor contributes one unit-square face of two triangles, six PushVertex
calls (lines 269-359). -/
def cellVertexCount (b : Nat → Nat → Nat → Nat) (y z x : Nat) : Nat :=
  if b (y + 1) (z + 1) (x + 1) = 0 ∨ b (y + 1) (z + 1) (x + 1) = 7540 then 0
  else 6 * emptyNeighborCount b y z x

/-- Total vertex count accumulated by the triple loop over the 16x16x16
interior cells (src/src/gamestate.cpp lines 233-362). -/
def meshVertexCount (b : Nat → Nat → Nat → Nat) : Nat :=
  ((List.range 16).map fun y =>
    ((List.range 16).map fun z =>
      ((List.range 16).map fun x => cellVertexCount b y z x).sum).sum).sum

/-- Column whose sub-chunk 8 is entirely solid stone (id 1) and whose other
sub-chunks are air, used for the solid-shell mesher scenario. -/
def solidSection : Nat → Nat → Nat → Nat → Nat :=
  fun i _ _ _ => if i = 8 then 1 else 0

/-- Column that is entirely air. -/
def airSection : Nat → Nat → Nat → Nat → Nat :=
  fun _ _ _ _ => 0

/-- C4: the claim that the vertical halo copies read only the column's own
16 sections and treat the world-top halo as air fails at chunk_y = 15: the
guard `chunk_y < 16` is satisfied there, so the above-halo copy reads
`section->chunks[16]` — one past the 16-entry array — and the top halo
layer takes whatever value lies at section index 16 instead of air, as the
bordered-volume evaluation at halo cell (17, 0, 0) shows. -/
theorem vertical_halo_reads_out_of_bounds :
    verticalHaloReads 15 = [16, 14] ∧
    ¬(∀ i ∈ verticalHaloReads 15, i < 16) ∧
    mkBordered (fun i _ _ _ => if i = 16 then 9 else 0)
      airSection airSection airSection airSection 15 17 0 0 = 9 := by
  refine ⟨rfl, by decide, by decide⟩

theorem solidBordered_char (a b c : Nat) :
    mkBordered solidSection airSection airSection airSection airSection 8 a b c =
      if 1 ≤ a ∧ a ≤ 16 ∧ 1 ≤ b ∧ b ≤ 16 ∧ 1 ≤ c ∧ c ≤ 16 then 1 else 0 := by
  unfold mkBordered solidSection airSection
  split_ifs <;> omega

theorem solid_lookup_flip (a b c : Nat) :
    (if mkBordered solidSection airSection airSection airSection airSection 8 a b c = 0
      then (1 : Nat) else 0) =
    if 1 ≤ a ∧ a ≤ 16 ∧ 1 ≤ b ∧ b ≤ 16 ∧ 1 ≤ c ∧ c ≤ 16 then 0 else 1 := by
  rw [solidBordered_char]
  by_cases h : 1 ≤ a ∧ a ≤ 16 ∧ 1 ≤ b ∧ b ≤ 16 ∧ 1 ≤ c ∧ c ≤ 16
  · rw [if_pos h, if_pos h, if_neg (by norm_num)]
  · rw [if_neg h, if_neg h, if_pos rfl]

theorem solid_cellVertexCount (y z x : Nat) (hy : y < 16) (hz : z < 16) (hx : x < 16) :
    cellVertexCount (mkBordered solidSection airSection airSection airSection airSection 8)
      y z x =
    6 * ((if y = 15 then 1 else 0) + (if y = 0 then 1 else 0) +
         (if z = 0 then 1 else 0) + (if z = 15 then 1 else 0) +
         (if x = 15 then 1 else 0) + (if x = 0 then 1 else 0)) := by
  have hcenter :
      mkBordered solidSection airSection airSection airSection airSection 8
        (y + 1) (z + 1) (x + 1) = 1 := by
    rw [solidBordered_char, if_pos (by omega)]
  unfold cellVertexCount emptyNeighborCount
  rw [hcenter, if_neg (by norm_num)]
  congr 1
  rw [solid_lookup_flip, solid_lookup_flip, solid_lookup_flip, solid_lookup_flip,
    solid_lookup_flip, solid_lookup_flip]
  congr 1
  congr 1
  congr 1
  congr 1
  congr 1
  · by_cases h : y = 15
    · rw [if_neg (by omega), if_pos h]
    · rw [if_pos (by omega), if_neg h]
  · by_cases h : y = 0
    · rw [if_neg (by omega), if_pos h]
    · rw [if_pos (by omega), if_neg h]
  · by_cases h : z = 0
    · rw [if_neg (by omega), if_pos h]
    · rw [if_pos (by omega), if_neg h]
  · by_cases h : z = 15
    · rw [if_neg (by omega), if_pos h]
    · rw [if_pos (by omega), if_neg h]
  · by_cases h : x = 15
    · rw [if_neg (by omega), if_pos h]
    · rw [if_pos (by omega), if_neg h]
  · by_cases h : x = 0
    · rw [if_neg (by omega), if_pos h]
    · rw [if_pos (by omega), if_neg h]

theorem solid_sum_x (A : Nat) :
    ((List.range 16).map fun x =>
      6 * (A + (if x = 15 then 1 else 0) + (if x = 0 then 1 else 0))).sum =
    96 * A + 12 := by
  have h16 : List.range 16 = [0, 1, 2, 3, 4, 5, 6, 7, 8, 9, 10, 11, 12, 13, 14, 15] := rfl
  rw [h16]
  simp
  omega

theorem solid_sum_z (B : Nat) :
    ((List.range 16).map fun z =>
      96 * (B + (if z = 0 then 1 else 0) + (if z = 15 then 1 else 0)) + 12).sum =
    1536 * B + 384 := by
  have h16 : List.range 16 = [0, 1, 2, 3, 4, 5, 6, 7, 8, 9, 10, 11, 12, 13, 14, 15] := rfl
  rw [h16]
  simp
  omega

theorem solid_sum_y :
    ((List.range 16).map fun y =>
      1536 * ((if y = 15 then 1 else 0) + (if y = 0 then 1 else 0)) + 384).sum =
    6 * 256 * 6 := by
  have h16 : List.range 16 = [0, 1, 2, 3, 4, 5, 6, 7, 8, 9, 10, 11, 12, 13, 14, 15] := rfl
  rw [h16]
  simp

theorem airBordered_char (a b c : Nat) :
    mkBordered airSection airSection airSection airSection airSection 8 a b c = 0 := by
  unfold mkBordered airSection
  split_ifs <;> rfl

/-- C5: an interior cell with a non-empty, non-excluded id emits exactly
six vertices (one unit-square face of two triangles) per empty neighbor in
the bordered volume; a cell that is air or the excluded barrier id emits
nothing, and so does a cell all of whose six neighbors are occupied; the
entirely solid sub-chunk with all-air neighbors meshes to exactly
6 faces x 256 unit squares x 6 vertices; and the entirely empty sub-chunk
yields vertex count 0. -/
theorem mesher_face_culling :
    (∀ b y z x, b (y + 1) (z + 1) (x + 1) ≠ 0 → b (y + 1) (z + 1) (x + 1) ≠ 7540 →
      cellVertexCount b y z x = 6 * emptyNeighborCount b y z x) ∧
    (∀ b y z x, b (y + 1) (z + 1) (x + 1) = 0 ∨ b (y + 1) (z + 1) (x + 1) = 7540 →
      cellVertexCount b y z x = 0) ∧
    (∀ b y z x, emptyNeighborCount b y z x = 0 → cellVertexCount b y z x = 0) ∧
    meshVertexCount
      (mkBordered solidSection airSection airSection airSection airSection 8) =
      6 * 256 * 6 ∧
    meshVertexCount
      (mkBordered airSection airSection airSection airSection airSection 8) = 0 := by
  refine ⟨?_, ?_, ?_, ?_, ?_⟩
  · intro b y z x h0 h7
    unfold cellVertexCount
    rw [if_neg]
    intro h
    rcases h with h | h
    · exact h0 h
    · exact h7 h
  · intro b y z x h
    unfold cellVertexCount
    rw [if_pos h]
  · intro b y z x h
    unfold cellVertexCount
    split
    · rfl
    · rw [h]
  · unfold meshVertexCount
    have hx_sum : ∀ y z, y < 16 → z < 16 →
        ((List.range 16).map fun x =>
          cellVertexCount
            (mkBordered solidSection airSection airSection airSection airSection 8)
            y z x).sum =
        96 * ((if y = 15 then 1 else 0) + (if y = 0 then 1 else 0) +
              (if z = 0 then 1 else 0) + (if z = 15 then 1 else 0)) + 12 := by
      intro y z hy hz
      rw [List.map_congr_left fun x hx =>
        solid_cellVertexCount y z x hy hz (List.mem_range.mp hx)]
      exact solid_sum_x _
    have hz_sum : ∀ y, y < 16 →
        ((List.range 16).map fun z =>
          ((List.range 16).map fun x =>
            cellVertexCount
              (mkBordered solidSection airSection airSection airSection airSection 8)
              y z x).sum).sum =
        1536 * ((if y = 15 then 1 else 0) + (if y = 0 then 1 else 0)) + 384 := by
      intro y hy
      rw [List.map_congr_left fun z hz => hx_sum y z hy (List.mem_range.mp hz)]
      exact solid_sum_z _
    rw [List.map_congr_left fun y hy => hz_sum y (List.mem_range.mp hy)]
    exact solid_sum_y
  · unfold meshVertexCount
    have hcell : ∀ y z x : Nat,
        cellVertexCount
          (mkBordered airSection airSection airSection airSection airSection 8) y z x = 0 := by
      intro y z x
      unfold cellVertexCount
      rw [airBordered_char, if_pos (Or.inl rfl)]
    have hx_sum : ∀ y z : Nat,
        ((List.range 16).map fun x =>
          cellVertexCount
            (mkBordered airSection airSection airSection airSection airSection 8)
            y z x).sum = 0 := by
      intro y z
      rw [List.map_congr_left fun x _ => hcell y z x]
      simp
    have hz_sum : ∀ y : Nat,
        ((List.range 16).map fun z =>
          ((List.range 16).map fun x =>
            cellVertexCount
              (mkBordered airSection airSection airSection airSection airSection 8)
              y z x).sum).sum = 0 := by
      intro y
      rw [List.map_congr_left fun z _ => hx_sum y z]
      simp
    rw [List.map_congr_left fun y _ => hz_sum y]
    simp

/-- Witness for C5: the all-solid volume at cell (0,0,0) satisfies the
non-air, non-barrier hypotheses, and its vertex count there is six per
empty neighbor. -/
theorem mesher_face_culling_witness :
    ((fun _ _ _ => 1 : Nat → Nat → Nat → Nat) 1 1 1 ≠ 0 ∧
     (fun _ _ _ => 1 : Nat → Nat → Nat → Nat) 1 1 1 ≠ 7540) ∧
    cellVertexCount (fun _ _ _ => 1) 0 0 0 =
      6 * emptyNeighborCount (fun _ _ _ => 1) 0 0 0 :=
  ⟨⟨by decide, by decide⟩,
    mesher_face_culling.1 (fun _ _ _ => 1) 0 0 0 (by decide) (by decide)⟩

/-- Readiness test of the build scheduler: `ChunkBuildContext::GetNeighbors`
resolves the four horizontal neighbor slots through the cache index and
`IsBuildable` requires all four loaded flags (src/src/gamestate.h lines
79-100: east = x+1, west = x-1, north = z-1, south = z+1); `loaded` maps a
slot (z index, x index) to its `chunk_infos` loaded flag. -/
def neighborsLoaded (loaded : Int × Int → Bool) (chunk_x chunk_z : Int) : Bool :=
  loaded (GetChunkCacheIndex chunk_z, GetChunkCacheIndex (chunk_x + 1)) &&
  loaded (GetChunkCacheIndex chunk_z, GetChunkCacheIndex (chunk_x - 1)) &&
  loaded (GetChunkCacheIndex (chunk_z - 1), GetChunkCacheIndex chunk_x) &&
  loaded (GetChunkCacheIndex (chunk_z + 1), GetChunkCacheIndex chunk_x)

/-- Queue-processing loop of `GameState::Update` (src/src/gamestate.cpp
lines 52-64): at index i, a ready column is built and removed by moving the
last entry into its place and shrinking the count (the index is not
advanced); a non-ready column is skipped by advancing the index.  The loop
ends when the index reaches the count.  `fuel` is a structural bound on the
remaining iterations in which the queue can still shrink; it never runs out
when initialized to the queue length (each step either consumes one queue
entry or advances the index).  Returns the remaining queue and the list of
columns built, in build order. -/
def schedulePassAux (ready : Int × Int → Bool) :
    Nat → List (Int × Int) → Nat → List (Int × Int) × List (Int × Int)
  | 0, arr, _ => (arr, [])
  | fuel + 1, arr, i =>
    if h : i < arr.length then
      if ready (arr.get ⟨i, h⟩) then
        let next := (arr.set i (arr.getLast (by
          intro hnil
          rw [hnil] at h
          exact absurd h (by simp)))).dropLast
        let r := schedulePassAux ready fuel next i
        (r.1, arr.get ⟨i, h⟩ :: r.2)
      else
        schedulePassAux ready fuel arr (i + 1)
    else (arr, [])

/-- One scheduling pass over the pending queue. -/
def schedulePass (ready : Int × Int → Bool) (queue : List (Int × Int)) :
    List (Int × Int) × List (Int × Int) :=
  schedulePassAux ready queue.length queue 0

/-- Queue processing with the readiness test of the source loop. -/
def processBuildQueue (loaded : Int × Int → Bool) (queue : List (Int × Int)) :
    List (Int × Int) × List (Int × Int) :=
  schedulePass (fun c => neighborsLoaded loaded c.1 c.2) queue

/-- Sub-chunk indices meshed by `GameState::BuildChunkMesh(ctx, x, z)`
(src/src/gamestate.cpp lines 390-396): sub-chunk cy is skipped unless
`bitmask & (1 << cy)` is nonzero. -/
def meshedSections (bitmask : Nat) : List Nat :=
  (List.range 16).filter fun cy => decide (bitmask &&& (1 <<< cy) ≠ 0)

theorem count_set_add (l : List (Int × Int)) (i : Nat) (b : Int × Int)
    (h : i < l.length) (a : Int × Int) :
    (l.set i b).count a + (if l.get ⟨i, h⟩ = a then 1 else 0) =
    l.count a + (if b = a then 1 else 0) := by
  induction l generalizing i with
  | nil => simp at h
  | cons x xs ih =>
    cases i with
    | zero =>
      simp only [List.set, List.get, List.count_cons, beq_iff_eq]
      split_ifs <;> omega
    | succ i =>
      have hi : i < xs.length := by simpa using h
      have := ih i hi
      simp only [List.set, List.get, List.count_cons, beq_iff_eq]
      split_ifs at this ⊢ <;> omega

theorem count_dropLast_add (l : List (Int × Int)) (hne : l ≠ []) (a : Int × Int) :
    l.dropLast.count a + (if l.getLast hne = a then 1 else 0) = l.count a := by
  conv_rhs => rw [← List.dropLast_append_getLast hne]
  rw [List.count_append, List.count_singleton]
  simp [beq_iff_eq]

theorem count_swapRemove :
    ∀ (arr : List (Int × Int)) (i : Nat) (h : i < arr.length) (hne : arr ≠ [])
      (a : Int × Int),
    ((arr.set i (arr.getLast hne)).dropLast).count a +
      (if arr.get ⟨i, h⟩ = a then 1 else 0) = arr.count a := by
  intro arr
  induction arr with
  | nil => intro i h hne a; simp at h
  | cons x xs ih =>
    intro i h hne a
    cases i with
    | zero =>
      cases xs with
      | nil => simp [List.count_cons, beq_iff_eq]
      | cons y ys =>
        have hys : (y :: ys : List (Int × Int)) ≠ [] := by simp
        rw [List.getLast_cons hys]
        show (((y :: ys).getLast hys :: (y :: ys)).dropLast).count a + _ = _
        rw [List.dropLast_cons_of_ne_nil hys]
        have hd := count_dropLast_add (y :: ys) hys a
        simp only [List.count_cons, beq_iff_eq, List.get] at hd ⊢
        split_ifs at hd ⊢ <;> omega
    | succ i =>
      have hxs : (xs : List (Int × Int)) ≠ [] := by
        intro hnil
        rw [hnil] at h
        simp at h
      have hi : i < xs.length := by simpa using h
      rw [List.getLast_cons hxs]
      show ((x :: xs.set i (xs.getLast hxs)).dropLast).count a + _ = _
      have hset : (xs.set i (xs.getLast hxs) : List (Int × Int)) ≠ [] := by
        intro hnil
        have := congrArg List.length hnil
        simp at this
        rw [this] at hi
        simp at hi
      rw [List.dropLast_cons_of_ne_nil hset]
      have hrec := ih i hi hxs a
      simp only [List.count_cons, beq_iff_eq, List.get]
      split_ifs at hrec ⊢ <;> omega

theorem schedulePassAux_spec (ready : Int × Int → Bool) (fuel : Nat) :
    ∀ arr i, arr.length - i ≤ fuel →
    (∀ j (hj : j < arr.length), j < i → ready (arr.get ⟨j, hj⟩) = false) →
    ((∀ a, (schedulePassAux ready fuel arr i).1.count a +
        (schedulePassAux ready fuel arr i).2.count a = arr.count a) ∧
     (∀ c ∈ (schedulePassAux ready fuel arr i).1, ready c = false) ∧
     (∀ c ∈ (schedulePassAux ready fuel arr i).2, ready c = true)) := by
  induction fuel with
  | zero =>
    intro arr i hn hpre
    have hstep : schedulePassAux ready 0 arr i = (arr, []) := rfl
    rw [hstep]
    refine ⟨fun a => by simp, ?_, by simp⟩
    intro c hc
    have hc2 : c ∈ arr := hc
    obtain ⟨⟨j, hj⟩, rfl⟩ := List.mem_iff_get.mp hc2
    exact hpre j hj (by omega)
  | succ fuel ih =>
    intro arr i hn hpre
    by_cases h : i < arr.length
    · by_cases hr : ready (arr.get ⟨i, h⟩) = true
      · have hne : arr ≠ [] := by
          intro hnil
          rw [hnil] at h
          exact absurd h (by simp)
        have hstep : schedulePassAux ready (fuel + 1) arr i =
            ((schedulePassAux ready fuel
               ((arr.set i (arr.getLast hne)).dropLast) i).1,
             arr.get ⟨i, h⟩ :: (schedulePassAux ready fuel
               ((arr.set i (arr.getLast hne)).dropLast) i).2) := by
          simp only [schedulePassAux, dif_pos h, if_pos hr]
        have hlen : ((arr.set i (arr.getLast hne)).dropLast).length = arr.length - 1 := by
          simp
        have hprenext : ∀ j (hj : j < ((arr.set i (arr.getLast hne)).dropLast).length),
            j < i → ready (((arr.set i (arr.getLast hne)).dropLast).get ⟨j, hj⟩) = false := by
          intro j hj hji
          have hj2 : j < (arr.set i (arr.getLast hne)).length := by
            simp only [List.length_set]
            omega
          have e1 : ((arr.set i (arr.getLast hne)).dropLast).get ⟨j, hj⟩ =
              (arr.set i (arr.getLast hne)).get ⟨j, hj2⟩ := by
            simp [List.get_eq_getElem]
          have e2 : (arr.set i (arr.getLast hne)).get ⟨j, hj2⟩ =
              arr.get ⟨j, by omega⟩ := by
            simp [List.get_eq_getElem, List.getElem_set_ne (by omega : i ≠ j)]
          rw [e1, e2]
          exact hpre j (by omega) hji
        have hrec := ih ((arr.set i (arr.getLast hne)).dropLast) i (by omega) hprenext
        rw [hstep]
        refine ⟨?_, hrec.2.1, ?_⟩
        · intro a
          have hcnt := count_swapRemove arr i h hne a
          have h1 := hrec.1 a
          simp only [List.count_cons, beq_iff_eq]
          split_ifs at hcnt ⊢ <;> omega
        · intro c hc
          rcases List.mem_cons.mp hc with rfl | hc2
          · exact hr
          · exact hrec.2.2 c hc2
      · have hstep : schedulePassAux ready (fuel + 1) arr i =
            schedulePassAux ready fuel arr (i + 1) := by
          simp only [schedulePassAux, dif_pos h, if_neg hr]
        rw [hstep]
        apply ih arr (i + 1) (by omega)
        intro j hj hji
        by_cases hj2 : j < i
        · exact hpre j hj hj2
        · have hj3 : j = i := by omega
          subst hj3
          exact Bool.not_eq_true _ ▸ (by simpa using hr)
    · have hstep : schedulePassAux ready (fuel + 1) arr i = (arr, []) := by
        simp only [schedulePassAux, dif_neg h]
      rw [hstep]
      refine ⟨fun a => by simp, ?_, by simp⟩
      intro c hc
      have hc2 : c ∈ arr := hc
      obtain ⟨⟨j, hj⟩, rfl⟩ := List.mem_iff_get.mp hc2
      exact hpre j hj (by omega)

/-- Three of the four neighbor slots of column (0, 0) loaded (east slot
(0,1), west slot (0,23), north slot (23,0); the south slot (1,0) is not). -/
def loadedThree : Int × Int → Bool :=
  fun s => s == (0, 1) || s == (0, 23) || s == (23, 0)

/-- All four neighbor slots of column (0, 0) loaded. -/
def loadedFour : Int × Int → Bool :=
  fun s => s == (0, 1) || s == (0, 23) || s == (23, 0) || s == (1, 0)

/-- C6: a scheduling pass builds exactly the pending columns whose four
horizontal neighbor slots are loaded and leaves exactly the others pending
(stated by occurrence counts: the remaining queue and the built list
partition the original queue, every remaining column fails the neighbor
test, every built column passes it); the mesher is invoked for precisely
the sub-chunks whose presence bit is set; and column (0,0) pending with
only 3 of 4 neighbors loaded survives a pass untouched, then is built and
removed once the fourth neighbor is loaded. -/
theorem build_scheduler_gating :
    (∀ loaded queue (a : Int × Int),
      (processBuildQueue loaded queue).1.count a +
        (processBuildQueue loaded queue).2.count a = queue.count a) ∧
    (∀ loaded queue c, c ∈ (processBuildQueue loaded queue).1 →
      neighborsLoaded loaded c.1 c.2 = false) ∧
    (∀ loaded queue c, c ∈ (processBuildQueue loaded queue).2 →
      neighborsLoaded loaded c.1 c.2 = true) ∧
    (∀ bm cy, cy ∈ meshedSections bm ↔ cy < 16 ∧ bm.testBit cy = true) ∧
    processBuildQueue loadedThree [(0, 0)] = ([(0, 0)], []) ∧
    processBuildQueue loadedFour [(0, 0)] = ([], [(0, 0)]) := by
  have hbase : ∀ (ready : Int × Int → Bool) queue,
      (∀ a, (schedulePass ready queue).1.count a +
          (schedulePass ready queue).2.count a = queue.count a) ∧
      (∀ c ∈ (schedulePass ready queue).1, ready c = false) ∧
      (∀ c ∈ (schedulePass ready queue).2, ready c = true) := by
    intro ready queue
    exact schedulePassAux_spec ready queue.length queue 0 (by omega)
      (fun j hj hji => absurd hji (by omega))
  refine ⟨?_, ?_, ?_, ?_, by decide, by decide⟩
  · intro loaded queue a
    exact (hbase (fun c => neighborsLoaded loaded c.1 c.2) queue).1 a
  · intro loaded queue c hc
    exact (hbase (fun c => neighborsLoaded loaded c.1 c.2) queue).2.1 c hc
  · intro loaded queue c hc
    exact (hbase (fun c => neighborsLoaded loaded c.1 c.2) queue).2.2 c hc
  · intro bm cy
    have hbit : (bm &&& (1 <<< cy) ≠ 0) ↔ bm.testBit cy = true := by
      rw [Nat.shiftLeft_eq, one_mul]
      rw [Nat.and_two_pow]
      cases h : bm.testBit cy
      · simp [h]
      · simp [h, (Nat.two_pow_pos cy).ne']
    simp [meshedSections, List.mem_filter, List.mem_range, hbit, and_comm]

/-- Witness for C6: with all four neighbors of (0,0) loaded, the single
built column (0,0) passes the neighbor test. -/
theorem build_scheduler_gating_witness :
    ((0, 0) : Int × Int) ∈ (processBuildQueue loadedFour [(0, 0)]).2 ∧
    neighborsLoaded loadedFour 0 0 = true :=
  ⟨by decide, build_scheduler_gating.2.2.1 loadedFour [(0, 0)] (0, 0) (by decide)⟩

/-- State of one cache slot as touched by `GameState::OnChunkUnload`
(src/src/gamestate.cpp lines 130-149): the stored occupant coordinate and
loaded flag of its `ChunkSectionInfo`, and the `vertex_count` of each of
its 16 render meshes (indexed 0..15; the function domain is Nat to model
raw array addressing). -/
structure SlotState where
  info_x : Int
  info_z : Int
  bitmask : Nat
  loaded : Bool
  vertex_counts : Nat → Nat

/-- `GameState::OnChunkUnload` effect on the addressed slot: the loaded
flag is cleared first (line 135); then, only when the stored coordinate
still matches the request (lines 137-139 return early otherwise), each of
the 16 meshes with a positive vertex count is freed and its count zeroed
(lines 141-148).  Returns the new slot state and the list of sub-chunk
indices whose meshes were handed back to the renderer. -/
def OnChunkUnload (s : SlotState) (chunk_x chunk_z : Int) : SlotState × List Nat :=
  if s.info_x ≠ chunk_x ∨ s.info_z ≠ chunk_z then
    ({ s with loaded := false }, [])
  else
    ({ s with
        loaded := false
        vertex_counts := fun cy => if cy < 16 then 0 else s.vertex_counts cy },
     (List.range 16).filter fun cy => decide (0 < s.vertex_counts cy))

/-- Slot whose stored occupant is column (0, 0), currently loaded. -/
def staleSlot : SlotState :=
  { info_x := 0, info_z := 0, bitmask := 0, loaded := true, vertex_counts := fun _ => 0 }

/-- Counterexample to C7 as stated: unloading (24, 0) — which wraps to the
same cache slot as the stored occupant (0, 0) but does not match it —
nevertheless clears the slot's loaded flag, so the operation is not a
no-op on the loaded flag. -/
theorem chunk_unload_mismatch_clears_loaded :
    GetChunkCacheIndex 24 = GetChunkCacheIndex 0 ∧
    (staleSlot.info_x ≠ (24 : Int) ∨ staleSlot.info_z ≠ (0 : Int)) ∧
    staleSlot.loaded = true ∧
    (OnChunkUnload staleSlot 24 0).1.loaded = false := by
  refine ⟨by decide, by decide, rfl, rfl⟩

/-- C7 amended: column unload clears the slot's loaded flag
unconditionally; when the stored coordinate no longer matches the request
everything else is a no-op — mesh vertex counts, the stored coordinate and
the bitmask are unchanged and no mesh is released — and only when the
stored coordinate still matches are the meshes with positive vertex count
released and all 16 vertex counts zeroed. -/
theorem chunk_unload_guard (s : SlotState) (x z : Int) :
    (OnChunkUnload s x z).1.loaded = false ∧
    (s.info_x ≠ x ∨ s.info_z ≠ z →
      (OnChunkUnload s x z).1.vertex_counts = s.vertex_counts ∧
      (OnChunkUnload s x z).2 = [] ∧
      (OnChunkUnload s x z).1.info_x = s.info_x ∧
      (OnChunkUnload s x z).1.info_z = s.info_z ∧
      (OnChunkUnload s x z).1.bitmask = s.bitmask) ∧
    (s.info_x = x ∧ s.info_z = z →
      (∀ cy, cy < 16 → (OnChunkUnload s x z).1.vertex_counts cy = 0) ∧
      (∀ cy, cy ∈ (OnChunkUnload s x z).2 ↔ cy < 16 ∧ 0 < s.vertex_counts cy)) := by
  by_cases h : s.info_x ≠ x ∨ s.info_z ≠ z
  · have hstep : OnChunkUnload s x z = ({ s with loaded := false }, []) := by
      unfold OnChunkUnload
      rw [if_pos h]
    rw [hstep]
    refine ⟨rfl, fun _ => ⟨rfl, rfl, rfl, rfl, rfl⟩, fun hm => absurd h ?_⟩
    push_neg
    exact hm
  · have hstep : OnChunkUnload s x z =
        ({ s with
            loaded := false
            vertex_counts := fun cy => if cy < 16 then 0 else s.vertex_counts cy },
         (List.range 16).filter fun cy => decide (0 < s.vertex_counts cy)) := by
      unfold OnChunkUnload
      rw [if_neg h]
    rw [hstep]
    refine ⟨rfl, fun hmis => absurd hmis h, fun _ => ⟨?_, ?_⟩⟩
    · intro cy hcy
      simp [hcy]
    · intro cy
      simp [List.mem_filter, List.mem_range, and_comm]

/-- Witness for C7 amended: unloading the aliased coordinate (24, 0) from
the slot occupied by (0, 0) frees nothing and keeps the vertex counts. -/
theorem chunk_unload_guard_witness :
    (staleSlot.info_x ≠ (24 : Int) ∨ staleSlot.info_z ≠ (0 : Int)) ∧
    (OnChunkUnload staleSlot 24 0).2 = [] :=
  ⟨by decide, ((chunk_unload_guard staleSlot 24 0).2.1 (by decide)).2.1⟩

/-- Loaded flags and pending-build queue touched by `GameState::OnChunkLoad`
(src/src/gamestate.cpp lines 399-408). -/
structure LoadState where
  loaded : Int × Int → Bool
  queue : List (Int × Int)

/-- `GameState::OnChunkLoad`: marks the slot addressed by the wrapped
coordinate as loaded and appends the coordinate to the build queue
(line 407: `world.build_queue[world.build_queue_count++] = ...`, with no
membership test). -/
def OnChunkLoad (st : LoadState) (chunk_x chunk_z : Int) : LoadState where
  loaded := fun s =>
    if s = (GetChunkCacheIndex chunk_z, GetChunkCacheIndex chunk_x) then true
    else st.loaded s
  queue := st.queue ++ [(chunk_x, chunk_z)]

/-- Counterexample to C8 as stated: two chunk-data loads of the same column
(0, 0) starting from an empty queue leave the coordinate in the pending
queue twice — `OnChunkLoad` never checks for presence, so the queue does
contain duplicate coordinates. -/
theorem chunk_load_duplicate :
    (OnChunkLoad (OnChunkLoad ⟨fun _ => false, []⟩ 0 0) 0 0).queue =
      [(0, 0), (0, 0)] ∧
    (OnChunkLoad (OnChunkLoad ⟨fun _ => false, []⟩ 0 0) 0 0).queue.count (0, 0) = 2 := by
  exact ⟨rfl, by decide⟩

/-- C8 amended: a column newly marked loaded from a chunk-data packet is
always appended to the pending queue, with no dedup check, so each load
increments the occurrence count of its coordinate; the slot's loaded flag
is set.  (The only membership test on the queue is on the block-change
path, which never inserts.) -/
theorem chunk_load_appends (st : LoadState) (x z : Int) :
    (OnChunkLoad st x z).queue = st.queue ++ [(x, z)] ∧
    (OnChunkLoad st x z).queue.count (x, z) = st.queue.count (x, z) + 1 ∧
    (OnChunkLoad st x z).loaded (GetChunkCacheIndex z, GetChunkCacheIndex x) = true := by
  refine ⟨rfl, ?_, by simp [OnChunkLoad]⟩
  show (st.queue ++ [(x, z)]).count (x, z) = st.queue.count (x, z) + 1
  rw [List.count_append, List.count_singleton]
  simp

/-- Modelled from the spec: fixed-width primitive reads
(`ReadU8/U16/U32/U64/Float/Double`, spec section 4.1) consume `n` bytes
from the cursor after an availability check and return the raw big-endian
byte pattern (the numeric float interpretation is never needed by the
claims); the RingBuffer implementation is not under src/. -/
def RingBuffer.readBytesVal (rb : RingBuffer) (n : Nat) : Option (Nat × RingBuffer) :=
  if rb.readAmount < n then none
  else some ((List.range n).foldl (fun acc i => acc * 256 + rb.byteAt i) 0, rb.advance n)

/-- Byte-level model of the PlayerPositionAndLook (0x34) handler
(src/src/packet_interpreter.cpp lines 73-86): three doubles (8 bytes each),
two floats (4 bytes each), one flags byte, then a VarInt teleport id; the
handler sends SendTeleportConfirm with exactly that id.  Returns the
cursor after the reads and the id sent. -/
def handlePositionAndLook (rb : RingBuffer) : Option (RingBuffer × Nat) :=
  (rb.readBytesVal 8).bind fun p1 =>
  (p1.2.readBytesVal 8).bind fun p2 =>
  (p2.2.readBytesVal 8).bind fun p3 =>
  (p3.2.readBytesVal 4).bind fun p4 =>
  (p4.2.readBytesVal 4).bind fun p5 =>
  (p5.2.readBytesVal 1).bind fun p6 =>
  p6.2.readVarInt.bind fun p7 =>
  some (p7.2, p7.1)

/-- Camera state of the game (position plus yaw/pitch), with exact
rational coordinates standing in for the float fields. -/
structure CameraState where
  position : ℚ × ℚ × ℚ
  yaw : ℚ
  pitch : ℚ

/-- Outbound messages the interpreter can send synchronously. -/
inductive OutMessage where
  | teleportConfirm (id : Nat)
  | keepAlive (id : Nat)
deriving DecidableEq

/-- Value-level effect of the 0x34 handler (src/src/packet_interpreter.cpp
lines 73-86): after decoding x, y, z, yaw, pitch, the flags byte and the
teleport id, the handler sends the teleport confirm and prints the
position; it never writes the camera or any other game state —
`GameState::OnPlayerPositionAndLook` (src/src/gamestate.cpp lines 124-128)
exists but has no caller in the interpreter. -/
def handlePositionAndLookDecoded (cam : CameraState)
    (x y z yaw pitch : ℚ) (flags : Nat) (teleport_id : Nat) :
    CameraState × List OutMessage :=
  (cam, [OutMessage.teleportConfirm teleport_id])

/-- Position component of `GameState::OnPlayerPositionAndLook`
(src/src/gamestate.cpp line 125): the camera position becomes the decoded
position plus (0, 1.8, 0); 1.8 is modelled as the rational 9/5 (only the
unchanged x component matters to the claims). -/
def OnPlayerPositionAndLookPosition (p : ℚ × ℚ × ℚ) : ℚ × ℚ × ℚ :=
  (p.1, p.2.1 + 9 / 5, p.2.2)

/-- Counterexample to C9 as stated: handling a position-and-look packet
whose decoded position is (5, 6, 7) leaves the camera exactly as it was —
the camera position x stays 0 instead of becoming the decoded 5 that the
camera-update routine would install — so the handler does not update the
camera/view position. -/
theorem position_packet_no_camera_update :
    (handlePositionAndLookDecoded ⟨(0, 0, 0), 0, 0⟩ 5 6 7 0 0 0 11).1 =
      (⟨(0, 0, 0), 0, 0⟩ : CameraState) ∧
    (handlePositionAndLookDecoded ⟨(0, 0, 0), 0, 0⟩ 5 6 7 0 0 0 11).1.position.1 ≠
      (OnPlayerPositionAndLookPosition (5, 6, 7)).1 := by
  exact ⟨rfl, by decide⟩

theorem readBytesVal_some (rb : RingBuffer) (n : Nat) (p : Nat × RingBuffer)
    (h : rb.readBytesVal n = some p) : p.2 = rb.advance n := by
  unfold RingBuffer.readBytesVal at h
  split at h
  · cases h
  · cases h
    rfl

theorem advance_advance (rb : RingBuffer) (m n : Nat) :
    (rb.advance m).advance n = rb.advance (m + n) := by
  cases rb
  simp [RingBuffer.advance, Nat.mod_add_mod, Nat.add_assoc]

/-- C9 amended: the position-and-look handler reads, in order, 3 doubles
(8 bytes each), 2 floats (4 bytes each), one flags byte and a VarInt
teleport id, and synchronously sends a teleport-confirm carrying exactly
the id that was read — on success the confirm id is the VarInt decoded 33
bytes past the packet cursor and the cursor ends right after it — but it
does not update the camera: the camera state and orientation are returned
unchanged for every decoded position. -/
theorem position_packet_reads_and_confirm :
    (∀ rb rb2 tid, handlePositionAndLook rb = some (rb2, tid) →
      ∃ n, readVarIntLoop (rb.advance 33) 10 0 0 = some (tid, n) ∧
        rb2 = (rb.advance 33).advance n) ∧
    (∀ cam x y z yaw pitch flags tid,
      (handlePositionAndLookDecoded cam x y z yaw pitch flags tid).1 = cam ∧
      (handlePositionAndLookDecoded cam x y z yaw pitch flags tid).2 =
        [OutMessage.teleportConfirm tid]) := by
  constructor
  · intro rb rb2 tid h
    unfold handlePositionAndLook at h
    cases h1 : rb.readBytesVal 8 with
    | none => simp [h1] at h
    | some p1 =>
      rw [h1] at h
      simp only [Option.some_bind] at h
      cases h2 : p1.2.readBytesVal 8 with
      | none => simp [h2] at h
      | some p2 =>
        rw [h2] at h
        simp only [Option.some_bind] at h
        cases h3 : p2.2.readBytesVal 8 with
        | none => simp [h3] at h
        | some p3 =>
          rw [h3] at h
          simp only [Option.some_bind] at h
          cases h4 : p3.2.readBytesVal 4 with
          | none => simp [h4] at h
          | some p4 =>
            rw [h4] at h
            simp only [Option.some_bind] at h
            cases h5 : p4.2.readBytesVal 4 with
            | none => simp [h5] at h
            | some p5 =>
              rw [h5] at h
              simp only [Option.some_bind] at h
              cases h6 : p5.2.readBytesVal 1 with
              | none => simp [h6] at h
              | some p6 =>
                rw [h6] at h
                simp only [Option.some_bind] at h
                have e1 := readBytesVal_some rb 8 p1 h1
                have e2 := readBytesVal_some p1.2 8 p2 h2
                have e3 := readBytesVal_some p2.2 8 p3 h3
                have e4 := readBytesVal_some p3.2 4 p4 h4
                have e5 := readBytesVal_some p4.2 4 p5 h5
                have e6 := readBytesVal_some p5.2 1 p6 h6
                have e33 : p6.2 = rb.advance 33 := by
                  rw [e6, e5, e4, e3, e2, e1]
                  rw [advance_advance, advance_advance, advance_advance,
                    advance_advance, advance_advance]
                rw [e33] at h
                unfold RingBuffer.readVarInt at h
                cases h7 : readVarIntLoop (rb.advance 33) 10 0 0 with
                | none => simp [h7] at h
                | some p7 =>
                  rw [h7] at h
                  simp only [Option.some_bind] at h
                  cases h
                  exact ⟨p7.2, rfl, rfl⟩

  · intro cam x y z yaw pitch flags tid
    exact ⟨rfl, rfl⟩

/-- Concrete buffer for the C9 witness: 64-byte ring, 40 readable bytes,
all zero except byte 33, the single-byte VarInt teleport id 11. -/
def posPacketBuffer : RingBuffer :=
  { size := 64
    data := fun i => if i = 33 then 11 else 0
    read_offset := 0
    write_offset := 40 }

/-- Witness for C9 amended: on the concrete buffer the handler succeeds,
and the theorem recovers the teleport id 11 decoded at offset 33. -/
theorem position_packet_reads_and_confirm_witness :
    handlePositionAndLook posPacketBuffer =
      some ((posPacketBuffer.advance 33).advance 1, 11) ∧
    ∃ n, readVarIntLoop (posPacketBuffer.advance 33) 10 0 0 = some (11, n) ∧
      (posPacketBuffer.advance 33).advance 1 = (posPacketBuffer.advance 33).advance n :=
  ⟨rfl, position_packet_reads_and_confirm.1 posPacketBuffer
    ((posPacketBuffer.advance 33).advance 1) 11 rfl⟩

end Polymer
